import Mathlib

/-!
Verification of df3120-fbclock, framebuffer.c.

A shallow embedding of `screen_size_in_bytes` and `display_png` from
`src/framebuffer.c`, and the properties of the 16-bit blit.

Conventions of the embedding.

* C `unsigned int` / `__u32` values are natural numbers; every arithmetic
  operation the source performs in `unsigned int` is followed by `% 2 ^ 32`.
  `png_byte` is reduced `% 256` and `uint16_t` is reduced `% 65536` at every
  assignment.
* `int` arguments (`x_pos`, `y_pos`) are integers; `to_u32` is the conversion C
  applies when an `int` meets an `unsigned int` operand.
* Memory is addressed by the byte offset from `fb->mem_start`, an unbounded
  integer (a flat address space wider than 32 bits): `mem_ptr` is kept as that
  offset. Only the integer operands of the pointer arithmetic are 32-bit.
* `blit_state.written` is a ghost log of the stores, in program order; it does
  not influence the computation.
* The C code checks no address, so `display_png` lets every store succeed.
  `display_png_outcome` is the same call on the mapping of `new_framebuffer`,
  where the first store outside the mapped bytes is fatal.
* Opening and decoding the PNG file is the work of libc and libpng. Its outcome
  is an input of the model: `none` stands for every path of the source that
  ends in `exit(EXIT_FAILURE)`, `some img` for a decoded image.
-/

namespace Fbclock

/-- The three fields of `struct fb_var_screeninfo` (linux/fb.h) that
framebuffer.c reads; each is a `__u32`. -/
structure fb_var_screeninfo where
  xres : Nat
  yres : Nat
  bits_per_pixel : Nat

/-- Modelled from the spec: `struct framebuffer` is declared in framebuffer.h,
which is not among the sources. framebuffer.c uses its fields `descriptor`,
`screeninfo` and `mem_start`; only `screeninfo` enters the arithmetic.
`mem_start` is the origin of the byte offsets. -/
structure framebuffer where
  screeninfo : fb_var_screeninfo

/-- Modelled from the spec: `struct image_size` is declared in framebuffer.h,
which is not among the sources. Its fields `x` and `y` hold the raster width and
height (PNG dimensions are at most 2^31 - 1, so every C integer type of at least
32 bits stores them unchanged). -/
structure image_size where
  x : Nat
  y : Nat
deriving DecidableEq

/-- What libpng hands back after `png_read_png`: `png_get_image_width`,
`png_get_image_height` and `png_get_rows` (row index, then byte index). -/
structure png_image where
  width : Nat
  height : Nat
  row_pointers : Nat → Nat → Nat

/-- Conversion of a C `int` to `unsigned int`. -/
def to_u32 (i : Int) : Nat := (i % 4294967296).toNat

/-- Lines 76-90: `bytes = xres * yres * bits_per_pixel/8`, evaluated left to
right in `unsigned int`; the conversion to `size_t` keeps the value. The four
`printf` calls are diagnostics and are left out. -/
def screen_size_in_bytes (fb : framebuffer) : Nat :=
  (((fb.screeninfo.xres * fb.screeninfo.yres) % 4294967296
      * fb.screeninfo.bits_per_pixel) % 4294967296) / 8

/-- The row stride `(bits_per_pixel/8) * xres` of line 181, in `unsigned int`. -/
def row_stride (fb : framebuffer) : Nat :=
  ((fb.screeninfo.bits_per_pixel / 8) * fb.screeninfo.xres) % 4294967296

/-- Lines 157-170: the value of `fb_pixel` after the conversion of the pixel
whose four bytes are `png_pixel 0 .. png_pixel 3`. -/
def fb_pixel (png_pixel : Nat → Nat) : Nat :=
  let r := png_pixel 0
  let g := png_pixel 1
  let b := png_pixel 2
  let fb_pixel := 0
  let r := (r >>> 3) % 256
  let g := (g >>> 2) % 256
  let b := (b >>> 3) % 256
  let fb_pixel := (fb_pixel ||| r) % 65536
  let fb_pixel := (fb_pixel <<< 6) % 65536
  let fb_pixel := (fb_pixel ||| g) % 65536
  let fb_pixel := (fb_pixel <<< 5) % 65536
  let fb_pixel := (fb_pixel ||| b) % 65536
  fb_pixel

/-- Memory, the position of `mem_ptr` and the log of stores. -/
structure blit_state where
  mem : Int → Nat
  mem_ptr : Int
  written : List (Int × Nat)

/-- The store `*mem_ptr = v` through an `unsigned char *`. -/
def store (s : blit_state) (v : Nat) : blit_state :=
  { mem := fun a => if a = s.mem_ptr then v % 256 else s.mem a
    mem_ptr := s.mem_ptr
    written := s.written ++ [(s.mem_ptr, v % 256)] }

/-- The statement `mem_ptr++`. -/
def incr (s : blit_state) : blit_state :=
  { mem := s.mem, mem_ptr := s.mem_ptr + 1, written := s.written }

/-- Lines 155-176: the body of the inner loop for column `x` of `row`. The index
`x*4` is a signed product, taken without wrap-around. -/
def write_pixel (row : Nat → Nat) (s : blit_state) (x : Nat) : blit_state :=
  let png_pixel := fun i => row (x * 4 + i)
  let p := fb_pixel png_pixel
  let s := store s p
  let s := incr s
  let s := store s (p >>> 8)
  incr s

/-- Lines 153-181: the body of the outer loop for row `y`. The inner `for` runs
`x` over `0 .. png_size.x - 1`; the two operands of lines 179 and 181 are
`unsigned int` products. -/
def write_row (fb : framebuffer) (png_size : image_size)
    (row_pointers : Nat → Nat → Nat) (s : blit_state) (y : Nat) : blit_state :=
  let row := row_pointers y
  let s := (List.range png_size.x).foldl (write_pixel row) s
  let s : blit_state :=
    { mem := s.mem
      mem_ptr := s.mem_ptr
        - ((png_size.x * (fb.screeninfo.bits_per_pixel / 8)) % 4294967296 : Nat)
      written := s.written }
  { mem := s.mem
    mem_ptr := s.mem_ptr + (row_stride fb : Nat)
    written := s.written }

/-- Lines 146-183: positioning of `mem_ptr` and the guarded double loop. The
outer `for` runs `y` over `0 .. png_size.y - 1`. -/
def blit (fb : framebuffer) (png_size : image_size)
    (row_pointers : Nat → Nat → Nat) (x_pos y_pos : Int) (mem : Int → Nat) :
    blit_state :=
  let bpp := fb.screeninfo.bits_per_pixel
  let s : blit_state := { mem := mem, mem_ptr := 0, written := [] }
  let s : blit_state :=
    { mem := s.mem
      mem_ptr := s.mem_ptr + ((to_u32 x_pos * (bpp / 8)) % 4294967296 : Nat)
      written := s.written }
  let s : blit_state :=
    { mem := s.mem
      mem_ptr := s.mem_ptr
        + ((((to_u32 y_pos * (bpp / 8)) % 4294967296) * fb.screeninfo.xres)
            % 4294967296 : Nat)
      written := s.written }
  if bpp = 16 then
    (List.range png_size.y).foldl (write_row fb png_size row_pointers) s
  else s

/-- How a call of `display_png` ends: the process exits, or the function
returns `png_size` and leaves the memory in the given state. -/
inductive display_result where
  | exit_failure : display_result
  | returned : image_size → blit_state → display_result

/-- Lines 98-185: every failure of opening or decoding the file ends in
`exit(EXIT_FAILURE)` (lines 110-132); otherwise `png_size` is read (lines
138-139), the pixels are placed and `png_size` is returned (line 184). -/
def display_png (fb : framebuffer) (png : Option png_image)
    (x_pos y_pos : Int) (mem : Int → Nat) : display_result :=
  match png with
  | none => display_result.exit_failure
  | some img =>
    let png_size : image_size := { x := img.width, y := img.height }
    let row_pointers := img.row_pointers
    display_result.returned png_size (blit fb png_size row_pointers x_pos y_pos mem)

/-- The 565 value as the specification writes it. -/
def packed565 (R G B : Nat) : Nat :=
  ((R >>> 3) <<< 11) ||| ((G >>> 2) <<< 5) ||| (B >>> 3)

/-- A framebuffer geometry. -/
def mk_fb (xres yres bpp : Nat) : framebuffer :=
  { screeninfo := { xres := xres, yres := yres, bits_per_pixel := bpp } }

/-- Four bytes R, G, B, A as a pixel. -/
def rgba (R G B A : Nat) : Nat → Nat := fun i =>
  if i = 0 then R else if i = 1 then G else if i = 2 then B else A

/-- The encoded low byte of pixel `x` of a row: what line 173 stores. -/
def lo_byte (row : Nat → Nat) (x : Nat) : Nat :=
  fb_pixel (fun i => row (x * 4 + i)) % 256

/-- The encoded high byte of pixel `x` of a row: what line 175 stores. -/
def hi_byte (row : Nat → Nat) (x : Nat) : Nat :=
  (fb_pixel (fun i => row (x * 4 + i)) >>> 8) % 256

/-- The state after the first `n` iterations of the inner loop. -/
def inner (row : Nat → Nat) (s : blit_state) (n : Nat) : blit_state :=
  (List.range n).foldl (write_pixel row) s

/-- The net displacement of `mem_ptr` over one iteration of the outer loop:
two bytes per pixel forward, then lines 179 and 181. -/
def row_step (fb : framebuffer) (png_size : image_size) : Int :=
  2 * (png_size.x : Int)
    - ((png_size.x * (fb.screeninfo.bits_per_pixel / 8)) % 4294967296 : Nat)
    + (row_stride fb : Nat)

/-- The state after the first `n` iterations of the outer loop. -/
def outer (fb : framebuffer) (sz : image_size) (rp : Nat → Nat → Nat)
    (s : blit_state) (n : Nat) : blit_state :=
  (List.range n).foldl (write_row fb sz rp) s

/-- The stores of one row of `w` pixels that starts at offset `p`. -/
def row_stores (row : Nat → Nat) (p : Int) (w : Nat) : List (Int × Nat) :=
  (List.range w).flatMap
    (fun x => [(p + 2 * x, lo_byte row x), (p + 2 * x + 1, hi_byte row x)])

/-- The offset of `mem_ptr` when the loops start (lines 147-149). -/
def start_offset (fb : framebuffer) (x_pos y_pos : Int) : Int :=
  (0 : Int)
    + ((to_u32 x_pos * (fb.screeninfo.bits_per_pixel / 8)) % 4294967296 : Nat)
    + ((((to_u32 y_pos * (fb.screeninfo.bits_per_pixel / 8)) % 4294967296)
          * fb.screeninfo.xres) % 4294967296 : Nat)

/-- The image size `display_png` returns, if it returns. -/
def display_result.size : display_result → Option image_size
  | display_result.exit_failure => none
  | display_result.returned sz _ => some sz

/-- The final state of `display_png`, if it returns. -/
def display_result.state : display_result → Option blit_state
  | display_result.exit_failure => none
  | display_result.returned _ s => some s

/-- The raster 2x1 = [(255,0,0,255), (0,255,0,255)]. -/
def img_red_green : png_image :=
  { width := 2, height := 1
    row_pointers := fun y i =>
      if y = 0 then [255, 0, 0, 255, 0, 255, 0, 255].getD i 0 else 0 }

/-- A raster of one pixel (255,255,255,255). -/
def img_white : png_image :=
  { width := 1, height := 1, row_pointers := fun _ _ => 255 }

/-- Memory filled with zero bytes. -/
def zero_mem : Int → Nat := fun _ => 0

/-- Memory filled with the sentinel byte 0xAA. -/
def sentinel_mem : Int → Nat := fun _ => 170

/-- Whether a logged store lies inside the region of `screen_size_in_bytes fb`
bytes that `new_framebuffer` maps at `mem_start` (lines 37-40). -/
def in_mapping (fb : framebuffer) (e : Int × Nat) : Bool :=
  decide (0 ≤ e.1) && decide (e.1 < (screen_size_in_bytes fb : Int))

/-- How a call of `display_png` ends when a store outside the mapped region is
fatal: the process exits, it is stopped at the first store outside the mapping
(at the given offset), or the function returns. -/
inductive call_outcome where
  | exit_failure : call_outcome
  | memory_fault : Int → call_outcome
  | returned : image_size → blit_state → call_outcome

/-- The call of `display_png` on the mapping of `new_framebuffer`. The C code
checks no address: `display_png` follows the code on flat memory, where every
store succeeds. Here the stores `*mem_ptr = ...` of lines 173 and 175 are
confined to the mapped bytes: the first logged store outside them ends the call
as a memory-safety violation (section 4.1 of the specification), and the return
on line 184 is reached only when there is none. -/
def display_png_outcome (fb : framebuffer) (png : Option png_image)
    (x_pos y_pos : Int) (mem : Int → Nat) : call_outcome :=
  match display_png fb png x_pos y_pos mem with
  | display_result.exit_failure => call_outcome.exit_failure
  | display_result.returned png_size s =>
    match s.written.find? (fun e => !in_mapping fb e) with
    | some e => call_outcome.memory_fault e.1
    | none => call_outcome.returned png_size s

/-- The image size a call returns, if it returns. -/
def call_outcome.size : call_outcome → Option image_size
  | call_outcome.exit_failure => none
  | call_outcome.memory_fault _ => none
  | call_outcome.returned sz _ => some sz

/-- The offset of the store that stopped a call, if one did. -/
def call_outcome.fault : call_outcome → Option Int
  | call_outcome.exit_failure => none
  | call_outcome.memory_fault o => some o
  | call_outcome.returned _ _ => none

/-- The calls whose stores all stay inside the mapping: the depth is not 16, so
nothing is stored, or the depth is 16, the size computation does not wrap and a
`w` x `h` raster placed at (x0, y0) fits in the surface. -/
def stays_in_mapping (fb : framebuffer) (w h : Nat) (x0 y0 : Int) : Prop :=
  fb.screeninfo.bits_per_pixel ≠ 16
    ∨ (fb.screeninfo.bits_per_pixel = 16
        ∧ fb.screeninfo.xres * fb.screeninfo.yres * 16 < 4294967296
        ∧ 0 ≤ x0 ∧ 0 ≤ y0
        ∧ x0 + w ≤ fb.screeninfo.xres ∧ y0 + h ≤ fb.screeninfo.yres)

/-! Lemmas on the pixel conversion. -/

/-- A shift followed by an or with a value below the shift width is an addition. -/
theorem shl_or (a b k : Nat) (hb : b < 2 ^ k) : (a <<< k) ||| b = a * 2 ^ k + b := by
  rw [Nat.shiftLeft_eq, Nat.mul_comm, ← Nat.mul_add_lt_is_or hb]

/-- The value of `fb_pixel` in plain arithmetic: none of the truncations loses a bit. -/
theorem fb_pixel_arith (p : Nat → Nat) (h0 : p 0 < 256) (h1 : p 1 < 256)
    (h2 : p 2 < 256) :
    fb_pixel p = (p 0 / 8) * 2048 + (p 1 / 4) * 32 + p 2 / 8 := by
  unfold fb_pixel
  simp only []
  generalize p 0 = r at *
  generalize p 1 = g at *
  generalize p 2 = b at *
  have e1 : (r >>> 3) % 256 = r / 8 := by rw [Nat.shiftRight_eq_div_pow]; omega
  have e2 : (g >>> 2) % 256 = g / 4 := by rw [Nat.shiftRight_eq_div_pow]; omega
  have e3 : (b >>> 3) % 256 = b / 8 := by rw [Nat.shiftRight_eq_div_pow]; omega
  rw [e1, e2, e3, Nat.zero_or]
  have h1 : (r / 8) % 65536 = r / 8 := by omega
  rw [h1]
  have h2 : ((r / 8) <<< 6) % 65536 = (r / 8) * 64 := by rw [Nat.shiftLeft_eq]; omega
  rw [h2]
  have h3 : (r / 8 * 64 ||| g / 4) = r / 8 * 64 + g / 4 := by
    have := shl_or (r / 8) (g / 4) 6 (by norm_num; omega)
    rw [Nat.shiftLeft_eq] at this
    simpa using this
  rw [h3]
  have h4 : (r / 8 * 64 + g / 4) % 65536 = r / 8 * 64 + g / 4 := by omega
  rw [h4]
  have h5 : ((r / 8 * 64 + g / 4) <<< 5) % 65536 = (r / 8 * 64 + g / 4) * 32 := by
    rw [Nat.shiftLeft_eq]; omega
  rw [h5]
  have h6 : ((r / 8 * 64 + g / 4) * 32 ||| b / 8) = (r / 8 * 64 + g / 4) * 32 + b / 8 := by
    have := shl_or (r / 8 * 64 + g / 4) (b / 8) 5 (by norm_num; omega)
    rw [Nat.shiftLeft_eq] at this
    simpa using this
  rw [h6]
  omega

/-- The specification formula in plain arithmetic. -/
theorem packed565_arith (R G B : Nat) (hG : G < 256) (hB : B < 256) :
    packed565 R G B = (R / 8) * 2048 + (G / 4) * 32 + B / 8 := by
  unfold packed565
  have e1 : R >>> 3 = R / 8 := by rw [Nat.shiftRight_eq_div_pow]
  have e2 : G >>> 2 = G / 4 := by rw [Nat.shiftRight_eq_div_pow]
  have e3 : B >>> 3 = B / 8 := by rw [Nat.shiftRight_eq_div_pow]
  rw [e1, e2, e3]
  have s1 : (R / 8) <<< 11 = 2 ^ 11 * (R / 8) := by rw [Nat.shiftLeft_eq, Nat.mul_comm]
  have s2 : (G / 4) <<< 5 = (G / 4) * 32 := by rw [Nat.shiftLeft_eq]
  have hg : (G / 4) * 32 < 2 ^ 11 := by norm_num; omega
  have hb : B / 8 < 2 ^ 5 := by norm_num; omega
  rw [s1, s2, ← Nat.mul_add_lt_is_or hg (R / 8)]
  have s3 : 2 ^ 11 * (R / 8) + (G / 4) * 32 = 2 ^ 5 * ((R / 8) * 64 + G / 4) := by omega
  rw [s3, ← Nat.mul_add_lt_is_or hb]
  omega

/-- Lines 157-170 compute the 565 value of the specification. -/
theorem fb_pixel_eq_packed565 (p : Nat → Nat) (h0 : p 0 < 256) (h1 : p 1 < 256)
    (h2 : p 2 < 256) : fb_pixel p = packed565 (p 0) (p 1) (p 2) := by
  rw [fb_pixel_arith p h0 h1 h2, packed565_arith _ _ _ h1 h2]

/-- Masking with 0xFF is reduction modulo 256. -/
theorem and_255 (n : Nat) : n &&& 255 = n % 256 :=
  Nat.and_pow_two_sub_one_eq_mod n 8

/-- The red and blue mask 0xF8 clears the three low bits of a byte. -/
theorem mask_f8 (R : Nat) (hR : R < 256) : (R / 8) * 8 = R &&& 0xF8 := by
  interval_cases R <;> rfl

/-- The green mask 0xFC clears the two low bits of a byte. -/
theorem mask_fc (G : Nat) (hG : G < 256) : (G / 4) * 4 = G &&& 0xFC := by
  interval_cases G <;> rfl

/-! Lemmas on the loops. -/

/-- One pixel advances `mem_ptr` by two bytes. -/
theorem write_pixel_ptr (row : Nat → Nat) (s : blit_state) (x : Nat) :
    (write_pixel row s x).mem_ptr = s.mem_ptr + 2 := by
  simp only [write_pixel, incr, store]; ring

/-- One pixel logs two stores, low byte first. -/
theorem write_pixel_written (row : Nat → Nat) (s : blit_state) (x : Nat) :
    (write_pixel row s x).written
      = s.written ++ [(s.mem_ptr, lo_byte row x), (s.mem_ptr + 1, hi_byte row x)] := by
  simp [write_pixel, incr, store, lo_byte, hi_byte]

/-- Memory after one pixel. -/
theorem write_pixel_mem (row : Nat → Nat) (s : blit_state) (x : Nat) (a : Int) :
    (write_pixel row s x).mem a
      = if a = s.mem_ptr + 1 then hi_byte row x
        else if a = s.mem_ptr then lo_byte row x else s.mem a := by
  simp [write_pixel, incr, store, lo_byte, hi_byte]

/-- Unfolding of the inner loop at its last iteration. -/
theorem inner_succ (row : Nat → Nat) (s : blit_state) (n : Nat) :
    inner row s (n + 1) = write_pixel row (inner row s n) n := by
  simp [inner, List.range_succ, List.foldl_append]

/-- The inner loop advances `mem_ptr` by two bytes per pixel. -/
theorem inner_ptr (row : Nat → Nat) (s : blit_state) (n : Nat) :
    (inner row s n).mem_ptr = s.mem_ptr + 2 * n := by
  induction n with
  | zero => simp [inner]
  | succ n ih => rw [inner_succ, write_pixel_ptr, ih]; push_cast; ring

/-- The inner loop changes no byte outside the pixels it visits. -/
theorem inner_frame (row : Nat → Nat) (s : blit_state) (n : Nat) (a : Int)
    (h : ∀ x, x < n → a ≠ s.mem_ptr + 2 * x ∧ a ≠ s.mem_ptr + 2 * x + 1) :
    (inner row s n).mem a = s.mem a := by
  induction n with
  | zero => simp [inner]
  | succ n ih =>
    rw [inner_succ, write_pixel_mem, inner_ptr]
    have hn := h n (Nat.lt_succ_self n)
    rw [if_neg hn.2, if_neg hn.1]
    exact ih (fun x hx => h x (Nat.lt_succ_of_lt hx))

/-- After the inner loop every visited pixel holds its two encoded bytes. -/
theorem inner_mem (row : Nat → Nat) (s : blit_state) (n : Nat) (x : Nat) (hx : x < n) :
    (inner row s n).mem (s.mem_ptr + 2 * x) = lo_byte row x
      ∧ (inner row s n).mem (s.mem_ptr + 2 * x + 1) = hi_byte row x := by
  induction n with
  | zero => omega
  | succ n ih =>
    rw [inner_succ, write_pixel_mem, write_pixel_mem, inner_ptr]
    by_cases hxn : x = n
    · subst hxn
      constructor
      · rw [if_neg (by omega), if_pos rfl]
      · rw [if_pos rfl]
    · have hlt : x < n := by omega
      have := ih hlt
      constructor
      · rw [if_neg (by omega), if_neg (by omega)]; exact this.1
      · rw [if_neg (by omega), if_neg (by omega)]; exact this.2

/-- The stores of the inner loop, in order. -/
theorem inner_written (row : Nat → Nat) (s : blit_state) (n : Nat) :
    (inner row s n).written
      = s.written ++ (List.range n).flatMap
          (fun x => [(s.mem_ptr + 2 * x, lo_byte row x), (s.mem_ptr + 2 * x + 1, hi_byte row x)]) := by
  induction n with
  | zero => simp [inner]
  | succ n ih =>
    rw [inner_succ, write_pixel_written, inner_ptr, ih]
    simp [List.range_succ, List.flatMap_append]

/-- One row moves `mem_ptr` by `row_step`. -/
theorem write_row_ptr (fb : framebuffer) (sz : image_size) (rp : Nat → Nat → Nat)
    (s : blit_state) (y : Nat) :
    (write_row fb sz rp s y).mem_ptr = s.mem_ptr + row_step fb sz := by
  have h := inner_ptr (rp y) s sz.x
  simp only [inner] at h
  simp only [write_row, row_step, h]; ring

/-- Lines 179 and 181 do not touch memory. -/
theorem write_row_mem (fb : framebuffer) (sz : image_size) (rp : Nat → Nat → Nat)
    (s : blit_state) (y : Nat) :
    (write_row fb sz rp s y).mem = (inner (rp y) s sz.x).mem := rfl

/-- Lines 179 and 181 store nothing. -/
theorem write_row_written (fb : framebuffer) (sz : image_size) (rp : Nat → Nat → Nat)
    (s : blit_state) (y : Nat) :
    (write_row fb sz rp s y).written = (inner (rp y) s sz.x).written := rfl

/-- Unfolding of the outer loop at its last iteration. -/
theorem outer_succ (fb : framebuffer) (sz : image_size) (rp : Nat → Nat → Nat)
    (s : blit_state) (n : Nat) :
    outer fb sz rp s (n + 1) = write_row fb sz rp (outer fb sz rp s n) n := by
  simp [outer, List.range_succ, List.foldl_append]

/-- The outer loop moves `mem_ptr` by `row_step` per row. -/
theorem outer_ptr (fb : framebuffer) (sz : image_size) (rp : Nat → Nat → Nat)
    (s : blit_state) (n : Nat) :
    (outer fb sz rp s n).mem_ptr = s.mem_ptr + n * row_step fb sz := by
  induction n with
  | zero => simp [outer]
  | succ n ih => rw [outer_succ, write_row_ptr, ih]; push_cast; ring

/-- The outer loop changes no byte outside the pixels it visits. -/
theorem outer_frame (fb : framebuffer) (sz : image_size) (rp : Nat → Nat → Nat)
    (s : blit_state) (n : Nat) (a : Int)
    (h : ∀ y x, y < n → x < sz.x →
      a ≠ s.mem_ptr + y * row_step fb sz + 2 * x
        ∧ a ≠ s.mem_ptr + y * row_step fb sz + 2 * x + 1) :
    (outer fb sz rp s n).mem a = s.mem a := by
  induction n with
  | zero => simp [outer]
  | succ n ih =>
    rw [outer_succ, write_row_mem, inner_frame]
    · exact ih (fun y x hy hx => h y x (Nat.lt_succ_of_lt hy) hx)
    · intro x hx
      rw [outer_ptr]
      exact h n x (Nat.lt_succ_self n) hx

/-- When rows do not overlap, every visited pixel holds its two encoded bytes after the outer loop. -/
theorem outer_mem (fb : framebuffer) (sz : image_size) (rp : Nat → Nat → Nat)
    (s : blit_state) (n : Nat) (hd : 2 * (sz.x : Int) ≤ row_step fb sz)
    (y x : Nat) (hy : y < n) (hx : x < sz.x) :
    (outer fb sz rp s n).mem (s.mem_ptr + y * row_step fb sz + 2 * x) = lo_byte (rp y) x
      ∧ (outer fb sz rp s n).mem (s.mem_ptr + y * row_step fb sz + 2 * x + 1)
          = hi_byte (rp y) x := by
  induction n with
  | zero => omega
  | succ n ih =>
    rw [outer_succ, write_row_mem]
    by_cases hyn : y = n
    · subst hyn
      have := inner_mem (rp y) (outer fb sz rp s y) sz.x x hx
      rw [outer_ptr] at this
      exact this
    · have hlt : y < n := by omega
      have hstep : ((y : Int) + 1) * row_step fb sz ≤ (n : Int) * row_step fb sz := by
        apply mul_le_mul_of_nonneg_right
        · exact_mod_cast hlt
        · have : (0 : Int) ≤ (sz.x : Int) := Int.natCast_nonneg _
          omega
      have hxI : (x : Int) < (sz.x : Int) := by exact_mod_cast hx
      have key : ∀ k : Int, 0 ≤ k → k < 2 → ∀ x', x' < sz.x →
          s.mem_ptr + y * row_step fb sz + 2 * x + k
            ≠ (outer fb sz rp s n).mem_ptr + 2 * x' ∧
          s.mem_ptr + y * row_step fb sz + 2 * x + k
            ≠ (outer fb sz rp s n).mem_ptr + 2 * x' + 1 := by
        intro k hk0 hk2 x' _
        rw [outer_ptr]
        have e : ((y : Int) + 1) * row_step fb sz
            = y * row_step fb sz + row_step fb sz := by ring
        constructor <;> omega
      constructor
      · rw [inner_frame]
        · exact (ih hlt).1
        · intro x' hx'
          have := key 0 (by omega) (by omega) x' hx'
          simpa using this
      · rw [inner_frame]
        · exact (ih hlt).2
        · intro x' hx'
          exact key 1 (by omega) (by omega) x' hx'

/-- The stores of the outer loop, in order. -/
theorem outer_written (fb : framebuffer) (sz : image_size) (rp : Nat → Nat → Nat)
    (s : blit_state) (n : Nat) :
    (outer fb sz rp s n).written
      = s.written ++ (List.range n).flatMap
          (fun y => row_stores (rp y) (s.mem_ptr + y * row_step fb sz) sz.x) := by
  induction n with
  | zero => simp [outer]
  | succ n ih =>
    rw [outer_succ, write_row_written, inner_written, outer_ptr, ih]
    simp [List.range_succ, List.flatMap_append, row_stores]

/-- On a 16-bit framebuffer `blit` is the outer loop run from `start_offset`. -/
theorem blit_16 (fb : framebuffer) (sz : image_size) (rp : Nat → Nat → Nat)
    (x_pos y_pos : Int) (mem : Int → Nat) (h : fb.screeninfo.bits_per_pixel = 16) :
    blit fb sz rp x_pos y_pos mem
      = outer fb sz rp { mem := mem, mem_ptr := start_offset fb x_pos y_pos, written := [] }
          sz.y := by
  simp only [blit, outer, start_offset, h, if_true]

/-- On any other depth `blit` only positions `mem_ptr`. -/
theorem blit_other (fb : framebuffer) (sz : image_size) (rp : Nat → Nat → Nat)
    (x_pos y_pos : Int) (mem : Int → Nat) (h : fb.screeninfo.bits_per_pixel ≠ 16) :
    blit fb sz rp x_pos y_pos mem
      = { mem := mem, mem_ptr := start_offset fb x_pos y_pos, written := [] } := by
  simp only [blit, start_offset, h, if_false]

/-- Conversion of a non-negative `int`. -/
theorem to_u32_natCast (n : Nat) : to_u32 (n : Int) = n % 4294967296 := by
  unfold to_u32
  omega

/-- A surface below 2^32 bytes keeps the stride and the row offset of every placed row below 2^32. -/
theorem nowrap (xres yres W H X Y : Nat) (hW : 0 < W) (hH : 0 < H)
    (hxw : X + W ≤ xres) (hyh : Y + H ≤ yres) (hs : xres * yres * 2 < 4294967296) :
    2 * xres < 4294967296 ∧ Y * 2 * xres < 4294967296 := by
  have h1 : xres * 1 ≤ xres * yres := Nat.mul_le_mul_left xres (by omega)
  have h2 : xres * Y ≤ xres * yres := Nat.mul_le_mul_left xres (by omega)
  constructor
  · omega
  · have : Y * 2 * xres = xres * Y * 2 := by ring
    omega

/-- Without wrap-around the loops start at byte `2*x + 2*y*xres`. -/
theorem start_offset_nowrap (fb : framebuffer) (W H X Y : Nat)
    (hb : fb.screeninfo.bits_per_pixel = 16) (hW : 0 < W) (hH : 0 < H)
    (hxw : X + W ≤ fb.screeninfo.xres) (hyh : Y + H ≤ fb.screeninfo.yres)
    (hs : fb.screeninfo.xres * fb.screeninfo.yres * 2 < 4294967296) :
    start_offset fb (X : Int) (Y : Int)
      = 2 * (X : Int) + 2 * (Y : Int) * (fb.screeninfo.xres : Int) := by
  obtain ⟨h1, h2⟩ := nowrap _ _ W H X Y hW hH hxw hyh hs
  unfold start_offset
  rw [to_u32_natCast, to_u32_natCast, hb]
  have eX : X % 4294967296 = X := Nat.mod_eq_of_lt (by omega)
  have hY : Y < 4294967296 := by
    rcases Nat.eq_zero_or_pos fb.screeninfo.xres with h0 | h0
    · omega
    · have : Y * 2 * 1 ≤ Y * 2 * fb.screeninfo.xres := Nat.mul_le_mul_left _ h0
      omega
  have eY : Y % 4294967296 = Y := Nat.mod_eq_of_lt hY
  rw [eX, eY]
  have e1 : X * (16 / 8) % 4294967296 = X * 2 := by omega
  have hY2 : Y * 2 < 4294967296 := by
    rcases Nat.eq_zero_or_pos fb.screeninfo.xres with h0 | h0
    · omega
    · have : Y * 2 * 1 ≤ Y * 2 * fb.screeninfo.xres := Nat.mul_le_mul_left _ h0
      omega
  have e2 : Y * (16 / 8) % 4294967296 = Y * 2 := by omega
  rw [e1, e2, Nat.mod_eq_of_lt h2]
  push_cast
  ring

/-- Without wrap-around the row step is the stride `2*xres`. -/
theorem row_step_nowrap (fb : framebuffer) (sz : image_size) (X Y : Nat)
    (hb : fb.screeninfo.bits_per_pixel = 16) (hW : 0 < sz.x) (hH : 0 < sz.y)
    (hxw : X + sz.x ≤ fb.screeninfo.xres) (hyh : Y + sz.y ≤ fb.screeninfo.yres)
    (hs : fb.screeninfo.xres * fb.screeninfo.yres * 2 < 4294967296) :
    row_step fb sz = 2 * (fb.screeninfo.xres : Int) := by
  obtain ⟨h1, _⟩ := nowrap _ _ sz.x sz.y X Y hW hH hxw hyh hs
  unfold row_step row_stride
  rw [hb]
  have e1 : sz.x * (16 / 8) % 4294967296 = sz.x * 2 := by omega
  have e2 : 16 / 8 * fb.screeninfo.xres % 4294967296 = 2 * fb.screeninfo.xres := by omega
  rw [e1, e2]
  push_cast
  ring

/-- Every store of a row hits one of the two bytes of one of its pixels. -/
theorem mem_row_stores (row : Nat → Nat) (p : Int) (w : Nat) (e : Int × Nat)
    (h : e ∈ row_stores row p w) :
    ∃ x, x < w ∧ (e.1 = p + 2 * x ∨ e.1 = p + 2 * x + 1) := by
  unfold row_stores at h
  rw [List.mem_flatMap] at h
  obtain ⟨x, hx, he⟩ := h
  refine ⟨x, List.mem_range.mp hx, ?_⟩
  simp only [List.mem_cons, List.mem_singleton, List.not_mem_nil, or_false] at he
  rcases he with he | he
  · left; rw [he]
  · right; rw [he]
/-- On a 16-bit surface whose size computation does not wrap, every store of an
in-bounds placement lies inside the mapped region. -/
theorem blit_stores_in_bounds (fb : framebuffer) (img : png_image) (X Y : Nat)
    (mem : Int → Nat)
    (hbpp : fb.screeninfo.bits_per_pixel = 16)
    (hsize : fb.screeninfo.xres * fb.screeninfo.yres * 16 < 4294967296)
    (hxw' : X + img.width ≤ fb.screeninfo.xres)
    (hyh' : Y + img.height ≤ fb.screeninfo.yres) :
    ∀ e ∈ (blit fb { x := img.width, y := img.height } img.row_pointers (X : Int) (Y : Int)
              mem).written,
      0 ≤ e.1 ∧ e.1 < (screen_size_in_bytes fb : Int) := by
  intro e he
  rw [blit_16 _ _ _ _ _ _ hbpp, outer_written] at he
  simp only [List.nil_append, List.mem_flatMap, List.mem_range] at he
  obtain ⟨y, hy, hrow⟩ := he
  obtain ⟨x, hx, hoff⟩ := mem_row_stores _ _ _ _ hrow
  have hy' : y < img.height := hy
  have hx' : x < img.width := hx
  have hs2 : fb.screeninfo.xres * fb.screeninfo.yres * 2 < 4294967296 := by omega
  have hso := start_offset_nowrap fb img.width img.height X Y hbpp (by omega) (by omega)
    hxw' hyh' hs2
  have hrs := row_step_nowrap fb { x := img.width, y := img.height } X Y hbpp
    (by show 0 < img.width; omega) (by show 0 < img.height; omega) hxw' hyh' hs2
  simp only [hso, hrs] at hoff
  have hscreen : screen_size_in_bytes fb
      = fb.screeninfo.xres * fb.screeninfo.yres * 2 := by
    unfold screen_size_in_bytes
    rw [hbpp, Nat.mod_mul_mod, Nat.mod_eq_of_lt hsize]
    omega
  rw [hscreen]
  have hrow1 : (Y + y + 1) * fb.screeninfo.xres ≤ fb.screeninfo.yres * fb.screeninfo.xres :=
    Nat.mul_le_mul_right _ (by omega)
  have hrow1' : (((Y : Int) + y + 1) * (fb.screeninfo.xres : Int))
      ≤ (fb.screeninfo.yres : Int) * (fb.screeninfo.xres : Int) := by exact_mod_cast hrow1
  have hprod : (fb.screeninfo.yres : Int) * (fb.screeninfo.xres : Int)
      = (fb.screeninfo.xres : Int) * (fb.screeninfo.yres : Int) := mul_comm _ _
  have hexp : ((Y : Int) + y + 1) * (fb.screeninfo.xres : Int)
      = (Y : Int) * (fb.screeninfo.xres : Int) + (y : Int) * (fb.screeninfo.xres : Int)
        + (fb.screeninfo.xres : Int) := by ring
  have hnn1 : (0 : Int) ≤ (Y : Int) * (fb.screeninfo.xres : Int) :=
    mul_nonneg (Int.natCast_nonneg _) (Int.natCast_nonneg _)
  have hnn2 : (0 : Int) ≤ (y : Int) * (fb.screeninfo.xres : Int) :=
    mul_nonneg (Int.natCast_nonneg _) (Int.natCast_nonneg _)
  have e1 : 2 * (Y : Int) * (fb.screeninfo.xres : Int)
      = 2 * ((Y : Int) * (fb.screeninfo.xres : Int)) := by ring
  have e2 : (y : Int) * (2 * (fb.screeninfo.xres : Int))
      = 2 * ((y : Int) * (fb.screeninfo.xres : Int)) := by ring
  rw [e1, e2] at hoff
  push_cast
  rw [hprod, hexp] at hrow1'
  generalize (Y : Int) * (fb.screeninfo.xres : Int) = A at *
  generalize (y : Int) * (fb.screeninfo.xres : Int) = B at *
  generalize (fb.screeninfo.xres : Int) * (fb.screeninfo.yres : Int) = C at *
  omega

/-- When every store stays inside the mapping the call returns what
`display_png` returns. -/
theorem display_png_outcome_returned (fb : framebuffer) (img : png_image)
    (x_pos y_pos : Int) (mem : Int → Nat)
    (h : ∀ e ∈ (blit fb { x := img.width, y := img.height } img.row_pointers x_pos y_pos
              mem).written,
      0 ≤ e.1 ∧ e.1 < (screen_size_in_bytes fb : Int)) :
    display_png_outcome fb (some img) x_pos y_pos mem
      = call_outcome.returned { x := img.width, y := img.height }
          (blit fb { x := img.width, y := img.height } img.row_pointers x_pos y_pos mem) := by
  have hfind : (blit fb { x := img.width, y := img.height } img.row_pointers x_pos y_pos
      mem).written.find? (fun e => !in_mapping fb e) = none := by
    rw [List.find?_eq_none]
    intro e he
    have := h e he
    simp [in_mapping, this.1, this.2]
  simp only [display_png_outcome, display_png, hfind]

/-! The claims. -/

/-- C1 (as amended): for a pixel whose channels R, G, B are bytes, the 16-bit
path stores exactly two bytes, first `packed & 0xFF` at `mem_ptr`, then
`(packed >> 8) & 0xFF` at `mem_ptr + 1`, with
`packed = ((R >> 3) << 11) | ((G >> 2) << 5) | (B >> 3)`, and moves `mem_ptr` two
bytes on. A pixel with the same R, G and B and any alpha stores the same bytes.
For (255, 128, 64, any A) the packed value is 0xFC08 and the bytes are
[0x08, 0xFC]. -/
theorem write_pixel_bytes (row : Nat → Nat) (s : blit_state) (x : Nat)
    (hR : row (x * 4 + 0) < 256) (hG : row (x * 4 + 1) < 256)
    (hB : row (x * 4 + 2) < 256) :
    (write_pixel row s x).written
        = s.written ++
          [(s.mem_ptr,
              packed565 (row (x * 4 + 0)) (row (x * 4 + 1)) (row (x * 4 + 2)) &&& 0xFF),
           (s.mem_ptr + 1,
              (packed565 (row (x * 4 + 0)) (row (x * 4 + 1)) (row (x * 4 + 2)) >>> 8)
                &&& 0xFF)]
      ∧ (write_pixel row s x).mem_ptr = s.mem_ptr + 2
      ∧ (∀ row' : Nat → Nat, row' (x * 4 + 0) = row (x * 4 + 0) →
          row' (x * 4 + 1) = row (x * 4 + 1) → row' (x * 4 + 2) = row (x * 4 + 2) →
          (write_pixel row' s x).written = (write_pixel row s x).written)
      ∧ (∀ A : Nat, packed565 255 128 64 = 0xFC08
          ∧ (write_pixel (rgba 255 128 64 A)
                { mem := zero_mem, mem_ptr := 0, written := [] } 0).written
              = [(0, 0x08), (1, 0xFC)]) := by
  have hp := fb_pixel_eq_packed565 (fun i => row (x * 4 + i)) hR hG hB
  simp only [] at hp
  refine ⟨?_, write_pixel_ptr row s x, ?_, ?_⟩
  · rw [write_pixel_written, and_255, and_255, ← hp]
    rfl
  · intro row' h0 h1 h2
    have hp' := fb_pixel_eq_packed565 (fun i => row' (x * 4 + i))
      (by simp only []; rw [h0]; exact hR) (by simp only []; rw [h1]; exact hG)
      (by simp only []; rw [h2]; exact hB)
    simp only [] at hp'
    rw [write_pixel_written, write_pixel_written]
    unfold lo_byte hi_byte
    rw [hp, hp', h0, h1, h2]
  · intro A
    refine ⟨by decide, ?_⟩
    have e : fb_pixel (fun i => rgba 255 128 64 A (0 * 4 + i)) = 0xFC08 := by
      simp [fb_pixel, rgba]
    rw [write_pixel_written]
    unfold lo_byte hi_byte
    rw [e]
    rfl

/-- Witness of C1 (as amended) at the pixel (255, 128, 64, 7). -/
theorem write_pixel_bytes_witness :
    (rgba 255 128 64 7 (0 * 4 + 0) < 256 ∧ rgba 255 128 64 7 (0 * 4 + 1) < 256
      ∧ rgba 255 128 64 7 (0 * 4 + 2) < 256)
      ∧ (write_pixel (rgba 255 128 64 7)
            { mem := zero_mem, mem_ptr := 40, written := [] } 0).written
          = [(40, 0x08), (41, 0xFC)] :=
  ⟨by decide,
    (write_pixel_bytes (rgba 255 128 64 7) { mem := zero_mem, mem_ptr := 40, written := [] } 0
      (by decide) (by decide) (by decide)).1.trans (by decide)⟩

/-- C1 as stated fails at its own example: (255, 128, 64, 255) does not pack to
0xFC48 and the bytes stored are not [0x48, 0xFC]. -/
theorem write_pixel_bytes_counterexample :
    packed565 255 128 64 ≠ 0xFC48
      ∧ fb_pixel (rgba 255 128 64 255) ≠ 0xFC48
      ∧ (write_pixel (rgba 255 128 64 255)
            { mem := zero_mem, mem_ptr := 0, written := [] } 0).written
          ≠ [(0, 0x48), (1, 0xFC)] := by
  refine ⟨by decide, by decide, by decide⟩

/-- C2 (as amended): on a framebuffer with bits_per_pixel = 16 whose byte size
`xres * yres * 2` is below 2^32, for a raster placed in bounds at (x0, y0),
`display_png` returns and the two bytes at offsets
`(y0+ry)*stride + (x0+rx)*2` and the next one, with `stride = xres * 2`, hold the
565 encoding, low byte then high byte, of raster pixel (rx, ry). -/
theorem display_png_places_pixel (fb : framebuffer) (img : png_image) (x0 y0 : Int)
    (mem : Int → Nat) (rx ry : Nat)
    (hbpp : fb.screeninfo.bits_per_pixel = 16)
    (hsize : fb.screeninfo.xres * fb.screeninfo.yres * 2 < 4294967296)
    (hx0 : 0 ≤ x0) (hy0 : 0 ≤ y0)
    (hxw : x0 + img.width ≤ fb.screeninfo.xres)
    (hyh : y0 + img.height ≤ fb.screeninfo.yres)
    (hrx : rx < img.width) (hry : ry < img.height)
    (hR : img.row_pointers ry (rx * 4 + 0) < 256)
    (hG : img.row_pointers ry (rx * 4 + 1) < 256)
    (hB : img.row_pointers ry (rx * 4 + 2) < 256) :
    ∃ s, display_png fb (some img) x0 y0 mem
          = display_result.returned { x := img.width, y := img.height } s
      ∧ s.mem ((y0 + ry) * ((fb.screeninfo.xres : Int) * 2) + (x0 + rx) * 2)
          = packed565 (img.row_pointers ry (rx * 4 + 0)) (img.row_pointers ry (rx * 4 + 1))
              (img.row_pointers ry (rx * 4 + 2)) &&& 0xFF
      ∧ s.mem ((y0 + ry) * ((fb.screeninfo.xres : Int) * 2) + (x0 + rx) * 2 + 1)
          = (packed565 (img.row_pointers ry (rx * 4 + 0)) (img.row_pointers ry (rx * 4 + 1))
              (img.row_pointers ry (rx * 4 + 2)) >>> 8) &&& 0xFF := by
  obtain ⟨X, rfl⟩ := Int.eq_ofNat_of_zero_le hx0
  obtain ⟨Y, rfl⟩ := Int.eq_ofNat_of_zero_le hy0
  have hxw' : X + img.width ≤ fb.screeninfo.xres := by exact_mod_cast hxw
  have hyh' : Y + img.height ≤ fb.screeninfo.yres := by exact_mod_cast hyh
  refine ⟨_, rfl, ?_⟩
  rw [blit_16 _ _ _ _ _ _ hbpp]
  have hso := start_offset_nowrap fb img.width img.height X Y hbpp (by omega) (by omega)
    hxw' hyh' hsize
  have hrs := row_step_nowrap fb { x := img.width, y := img.height } X Y hbpp
    (by show 0 < img.width; omega) (by show 0 < img.height; omega) hxw' hyh' hsize
  have hd : 2 * (img.width : Int) ≤ row_step fb { x := img.width, y := img.height } := by
    rw [hrs]; omega
  have h := outer_mem fb { x := img.width, y := img.height } img.row_pointers
    { mem := mem, mem_ptr := start_offset fb (X : Int) (Y : Int), written := [] }
    img.height hd ry rx hry hrx
  simp only [hso, hrs] at h
  have eoff : ((Y : Int) + ry) * ((fb.screeninfo.xres : Int) * 2) + ((X : Int) + rx) * 2
      = 2 * (X : Int) + 2 * (Y : Int) * (fb.screeninfo.xres : Int)
          + (ry : Int) * (2 * (fb.screeninfo.xres : Int)) + 2 * (rx : Int) := by ring
  have hp := fb_pixel_eq_packed565 (fun i => img.row_pointers ry (rx * 4 + i)) hR hG hB
  simp only [] at hp
  rw [eoff, and_255, and_255, ← hp, hso]
  exact h

/-- Witness of C2 (as amended): raster 2x1 = [(255,0,0,255), (0,255,0,255)] on a
4x4 surface at (1,1) puts [0x00,0xF8] at offsets 10..11 and [0xE0,0x07] at
offsets 12..13. -/
theorem display_png_places_pixel_witness :
    ((mk_fb 4 4 16).screeninfo.bits_per_pixel = 16
      ∧ (mk_fb 4 4 16).screeninfo.xres * (mk_fb 4 4 16).screeninfo.yres * 2 < 4294967296
      ∧ (1 : Int) + img_red_green.width ≤ (mk_fb 4 4 16).screeninfo.xres
      ∧ (1 : Int) + img_red_green.height ≤ (mk_fb 4 4 16).screeninfo.yres)
      ∧ (∃ s, display_png (mk_fb 4 4 16) (some img_red_green) 1 1 sentinel_mem
              = display_result.returned { x := 2, y := 1 } s
            ∧ s.mem 10 = 0x00 ∧ s.mem 11 = 0xF8)
      ∧ (∃ s, display_png (mk_fb 4 4 16) (some img_red_green) 1 1 sentinel_mem
              = display_result.returned { x := 2, y := 1 } s
            ∧ s.mem 12 = 0xE0 ∧ s.mem 13 = 0x07) :=
  ⟨by decide,
   by
    obtain ⟨s, h1, h2, h3⟩ := display_png_places_pixel (mk_fb 4 4 16) img_red_green 1 1
      sentinel_mem 0 0 (by decide) (by decide) (by decide) (by decide) (by decide)
      (by decide) (by decide) (by decide) (by decide) (by decide) (by decide)
    exact ⟨s, h1, h2.trans (by decide), h3.trans (by decide)⟩,
   by
    obtain ⟨s, h1, h2, h3⟩ := display_png_places_pixel (mk_fb 4 4 16) img_red_green 1 1
      sentinel_mem 1 0 (by decide) (by decide) (by decide) (by decide) (by decide)
      (by decide) (by decide) (by decide) (by decide) (by decide) (by decide)
    exact ⟨s, h1, h2.trans (by decide), h3.trans (by decide)⟩⟩

/-- C2 as stated fails on a 65536 x 65537 surface: the white 1x1 raster placed in
bounds at (0, 32768) belongs at offset 32768 * 131072 = 2^32, but line 149
computes `32768 * 2 * 65536` in `unsigned int`, which is 0, so the byte at 2^32
keeps its old value 0 instead of the low byte 0xFF. -/
theorem display_png_places_pixel_counterexample :
    ((mk_fb 65536 65537 16).screeninfo.bits_per_pixel = 16
      ∧ row_stride (mk_fb 65536 65537 16) = (mk_fb 65536 65537 16).screeninfo.xres * 2
      ∧ (0 : Int) ≤ 0 ∧ (0 : Int) ≤ 32768
      ∧ (0 : Int) + img_white.width ≤ (mk_fb 65536 65537 16).screeninfo.xres
      ∧ (32768 : Int) + img_white.height ≤ (mk_fb 65536 65537 16).screeninfo.yres
      ∧ 0 < img_white.width ∧ 0 < img_white.height)
      ∧ ∃ s, display_png (mk_fb 65536 65537 16) (some img_white) 0 32768 zero_mem
              = display_result.returned { x := 1, y := 1 } s
            ∧ s.mem ((32768 + (0 : Nat))
                  * (((mk_fb 65536 65537 16).screeninfo.xres : Int) * 2)
                  + (0 + (0 : Nat)) * 2)
                ≠ packed565 (img_white.row_pointers 0 (0 * 4 + 0))
                    (img_white.row_pointers 0 (0 * 4 + 1))
                    (img_white.row_pointers 0 (0 * 4 + 2)) &&& 0xFF :=
  ⟨by decide, _, rfl, by decide⟩

/-- C3 (as amended): on a framebuffer with bits_per_pixel = 16 whose byte size
`xres * yres * 2` is below 2^32, for a raster placed in bounds at (x0, y0),
`display_png` returns and every byte whose offset is not
`(y0+ry)*xres*2 + (x0+rx)*2 + k` with `rx < W`, `ry < H`, `k < 2` keeps the value
it had before the call. -/
theorem display_png_frame (fb : framebuffer) (img : png_image) (x0 y0 : Int)
    (mem : Int → Nat) (a : Int)
    (hbpp : fb.screeninfo.bits_per_pixel = 16)
    (hsize : fb.screeninfo.xres * fb.screeninfo.yres * 2 < 4294967296)
    (hx0 : 0 ≤ x0) (hy0 : 0 ≤ y0)
    (hxw : x0 + img.width ≤ fb.screeninfo.xres)
    (hyh : y0 + img.height ≤ fb.screeninfo.yres)
    (ha : ∀ rx ry k : Nat, rx < img.width → ry < img.height → k < 2 →
      a ≠ (y0 + ry) * (fb.screeninfo.xres : Int) * 2 + (x0 + rx) * 2 + k) :
    ∃ s, display_png fb (some img) x0 y0 mem
          = display_result.returned { x := img.width, y := img.height } s
      ∧ s.mem a = mem a := by
  obtain ⟨X, rfl⟩ := Int.eq_ofNat_of_zero_le hx0
  obtain ⟨Y, rfl⟩ := Int.eq_ofNat_of_zero_le hy0
  have hxw' : X + img.width ≤ fb.screeninfo.xres := by exact_mod_cast hxw
  have hyh' : Y + img.height ≤ fb.screeninfo.yres := by exact_mod_cast hyh
  refine ⟨_, rfl, ?_⟩
  rw [blit_16 _ _ _ _ _ _ hbpp]
  apply outer_frame
  intro y x hy hx
  have hy' : y < img.height := hy
  have hx' : x < img.width := hx
  have hso := start_offset_nowrap fb img.width img.height X Y hbpp (by omega) (by omega)
    hxw' hyh' hsize
  have hrs := row_step_nowrap fb { x := img.width, y := img.height } X Y hbpp
    (by show 0 < img.width; omega) (by show 0 < img.height; omega) hxw' hyh' hsize
  simp only [hso, hrs]
  have e0 := ha x y 0 hx' hy' (by omega)
  have e1 := ha x y 1 hx' hy' (by omega)
  have eoff : ((Y : Int) + y) * (fb.screeninfo.xres : Int) * 2 + ((X : Int) + x) * 2
      = 2 * (X : Int) + 2 * (Y : Int) * (fb.screeninfo.xres : Int)
          + (y : Int) * (2 * (fb.screeninfo.xres : Int)) + 2 * (x : Int) := by ring
  rw [eoff] at e0 e1
  push_cast at e0 e1
  constructor
  · intro h; apply e0; rw [h]; ring
  · intro h; apply e1; rw [h]

/-- Witness of C3 (as amended): on the sentinel-filled 4x4 surface the byte at
offset 9, just before the placed rectangle, keeps the sentinel. -/
theorem display_png_frame_witness :
    ((mk_fb 4 4 16).screeninfo.bits_per_pixel = 16
      ∧ (mk_fb 4 4 16).screeninfo.xres * (mk_fb 4 4 16).screeninfo.yres * 2 < 4294967296
      ∧ (1 : Int) + img_red_green.width ≤ (mk_fb 4 4 16).screeninfo.xres
      ∧ (1 : Int) + img_red_green.height ≤ (mk_fb 4 4 16).screeninfo.yres)
      ∧ ∃ s, display_png (mk_fb 4 4 16) (some img_red_green) 1 1 sentinel_mem
              = display_result.returned { x := 2, y := 1 } s
            ∧ s.mem 9 = sentinel_mem 9 :=
  ⟨by decide,
   display_png_frame (mk_fb 4 4 16) img_red_green 1 1 sentinel_mem 9 (by decide)
     (by decide) (by decide) (by decide) (by decide) (by decide)
     (by
      intro rx ry k hrx hry hk
      have h1 : rx < 2 := hrx
      have h2 : ry < 1 := hry
      have h3 : ((mk_fb 4 4 16).screeninfo.xres : Int) = 4 := rfl
      rw [h3]
      omega)⟩

/-- C3 as stated fails on a 65536 x 65537 surface: the white 1x1 raster placed in
bounds at (0, 32768) owns the offsets 2^32 and 2^32 + 1 only, yet the byte at
offset 0 changes from 0 to 0xFF. -/
theorem display_png_frame_counterexample :
    ((mk_fb 65536 65537 16).screeninfo.bits_per_pixel = 16
      ∧ (0 : Int) + img_white.width ≤ (mk_fb 65536 65537 16).screeninfo.xres
      ∧ (32768 : Int) + img_white.height ≤ (mk_fb 65536 65537 16).screeninfo.yres)
      ∧ (∀ rx ry k : Nat, rx < img_white.width → ry < img_white.height → k < 2 →
          (0 : Int) ≠ (32768 + ry) * ((mk_fb 65536 65537 16).screeninfo.xres : Int) * 2
            + (0 + rx) * 2 + k)
      ∧ ∃ s, display_png (mk_fb 65536 65537 16) (some img_white) 0 32768 zero_mem
              = display_result.returned { x := 1, y := 1 } s
            ∧ s.mem 0 = 0xFF ∧ zero_mem 0 = 0 := by
  refine ⟨by decide, ?_, _, rfl, by decide, rfl⟩
  intro rx ry k hrx hry hk
  have h3 : ((mk_fb 65536 65537 16).screeninfo.xres : Int) = 65536 := rfl
  rw [h3]
  omega

/-- C4 (as amended): on a framebuffer whose bits_per_pixel is not 16, for every
decoded raster and placement, `display_png` does not fail: it returns normally
with the size of the raster, having stored nothing. -/
theorem display_png_unsupported_returns (fb : framebuffer) (img : png_image)
    (x_pos y_pos : Int) (mem : Int → Nat) (hbpp : fb.screeninfo.bits_per_pixel ≠ 16) :
    display_png fb (some img) x_pos y_pos mem ≠ display_result.exit_failure
      ∧ (display_png fb (some img) x_pos y_pos mem).size
          = some { x := img.width, y := img.height }
      ∧ ∃ s, (display_png fb (some img) x_pos y_pos mem).state = some s
          ∧ s.written = [] := by
  refine ⟨by simp [display_png], rfl, _, rfl, ?_⟩
  rw [blit_other _ _ _ _ _ _ hbpp]

/-- Witness of C4 (as amended) on a 32-bit framebuffer. -/
theorem display_png_unsupported_returns_witness :
    (mk_fb 4 4 32).screeninfo.bits_per_pixel ≠ 16
      ∧ display_png (mk_fb 4 4 32) (some img_white) 0 0 sentinel_mem
          ≠ display_result.exit_failure
      ∧ (display_png (mk_fb 4 4 32) (some img_white) 0 0 sentinel_mem).size
          = some { x := 1, y := 1 } :=
  have h := display_png_unsupported_returns (mk_fb 4 4 32) img_white 0 0 sentinel_mem
    (by decide)
  ⟨by decide, h.1, h.2.1⟩

/-- C4 as stated fails at bits_per_pixel = 8: the call does not end in a
failure, it returns the size 2x1 of the raster. -/
theorem display_png_unsupported_counterexample :
    (mk_fb 4 4 8).screeninfo.bits_per_pixel ≠ 16
      ∧ display_png (mk_fb 4 4 8) (some img_red_green) 1 1 sentinel_mem
          ≠ display_result.exit_failure
      ∧ ∃ s, display_png (mk_fb 4 4 8) (some img_red_green) 1 1 sentinel_mem
          = display_result.returned { x := 2, y := 1 } s := by
  refine ⟨by decide, by simp [display_png], _, rfl⟩

/-- C5: on a framebuffer whose bits_per_pixel is not 16, for every raster and
placement, `display_png` stores nothing: the memory after the call equals the
memory before it. -/
theorem display_png_unsupported_no_write (fb : framebuffer) (img : png_image)
    (x_pos y_pos : Int) (mem : Int → Nat) (hbpp : fb.screeninfo.bits_per_pixel ≠ 16) :
    ∃ s, display_png fb (some img) x_pos y_pos mem
          = display_result.returned { x := img.width, y := img.height } s
      ∧ s.mem = mem ∧ s.written = [] := by
  refine ⟨_, rfl, ?_, ?_⟩ <;> rw [blit_other _ _ _ _ _ _ hbpp]

/-- Witness of C5 at bits_per_pixel = 8. -/
theorem display_png_unsupported_no_write_witness :
    (mk_fb 4 4 8).screeninfo.bits_per_pixel ≠ 16
      ∧ ∃ s, display_png (mk_fb 4 4 8) (some img_red_green) 1 1 sentinel_mem
            = display_result.returned { x := 2, y := 1 } s
          ∧ s.mem = sentinel_mem ∧ s.written = [] :=
  ⟨by decide,
   display_png_unsupported_no_write (mk_fb 4 4 8) img_red_green 1 1 sentinel_mem (by decide)⟩

/-- C6 (as amended): for every decoded raster of width W and height H and every
framebuffer geometry and placement whose stores stay inside the mapped region
(bits_per_pixel is not 16, or it is 16, `xres * yres * 16 < 2^32` and the
placement is in bounds), `display_png` returns the image size (W, H); among
these calls another geometry, placement, memory or pixel data gives the same
result. -/
theorem display_png_returns_size (fb : framebuffer) (img : png_image)
    (x_pos y_pos : Int) (mem : Int → Nat)
    (hsafe : stays_in_mapping fb img.width img.height x_pos y_pos) :
    (∃ s, display_png_outcome fb (some img) x_pos y_pos mem
            = call_outcome.returned { x := img.width, y := img.height } s
          ∧ display_png fb (some img) x_pos y_pos mem
            = display_result.returned { x := img.width, y := img.height } s)
      ∧ (display_png_outcome fb (some img) x_pos y_pos mem).size
          = some { x := img.width, y := img.height }
      ∧ ∀ (fb' : framebuffer) (x' y' : Int) (mem' : Int → Nat) (rp' : Nat → Nat → Nat),
          stays_in_mapping fb' img.width img.height x' y' →
          (display_png_outcome fb'
              (some { width := img.width, height := img.height, row_pointers := rp' })
              x' y' mem').size
            = (display_png_outcome fb (some img) x_pos y_pos mem).size := by
  have key : ∀ (fb' : framebuffer) (img' : png_image) (x' y' : Int) (mem' : Int → Nat),
      stays_in_mapping fb' img'.width img'.height x' y' →
      display_png_outcome fb' (some img') x' y' mem'
        = call_outcome.returned { x := img'.width, y := img'.height }
            (blit fb' { x := img'.width, y := img'.height } img'.row_pointers x' y' mem') := by
    intro fb' img' x' y' mem' hs
    apply display_png_outcome_returned
    rcases hs with hne | ⟨hbpp, hsize, hx0, hy0, hxw, hyh⟩
    · rw [blit_other _ _ _ _ _ _ hne]
      intro e he
      simp at he
    · obtain ⟨X, rfl⟩ := Int.eq_ofNat_of_zero_le hx0
      obtain ⟨Y, rfl⟩ := Int.eq_ofNat_of_zero_le hy0
      have hxw' : X + img'.width ≤ fb'.screeninfo.xres := by exact_mod_cast hxw
      have hyh' : Y + img'.height ≤ fb'.screeninfo.yres := by exact_mod_cast hyh
      exact blit_stores_in_bounds fb' img' X Y mem' hbpp hsize hxw' hyh'
  have h0 := key fb img x_pos y_pos mem hsafe
  refine ⟨⟨_, h0, rfl⟩, by rw [h0]; rfl, ?_⟩
  intro fb' x' y' mem' rp' hs'
  rw [h0, key fb' { width := img.width, height := img.height, row_pointers := rp' }
    x' y' mem' hs']
  rfl

/-- Witness of C6 (as amended): the 2x1 raster placed at (1,1) on the 4x4
surface is returned as size (2, 1). -/
theorem display_png_returns_size_witness :
    stays_in_mapping (mk_fb 4 4 16) img_red_green.width img_red_green.height 1 1
      ∧ (display_png_outcome (mk_fb 4 4 16) (some img_red_green) 1 1 sentinel_mem).size
          = some { x := 2, y := 1 } :=
  have hs : stays_in_mapping (mk_fb 4 4 16) img_red_green.width img_red_green.height 1 1 :=
    Or.inr (by decide)
  ⟨hs, (display_png_returns_size (mk_fb 4 4 16) img_red_green 1 1 sentinel_mem hs).2.1⟩

/-- C6 as stated fails on a 320x240 surface at 16 bits (153600 mapped bytes):
for the 1x1 raster placed at (0, 100000) line 173 stores at offset 64000000,
outside the mapping, so the call does not return the size (1, 1). -/
theorem display_png_returns_size_counterexample :
    screen_size_in_bytes (mk_fb 320 240 16) = 153600
      ∧ (display_png_outcome (mk_fb 320 240 16) (some img_white) 0 100000 zero_mem).fault
          = some 64000000
      ∧ (display_png_outcome (mk_fb 320 240 16) (some img_white) 0 100000 zero_mem).size
          ≠ some { x := img_white.width, y := img_white.height } := by
  refine ⟨by decide, by decide, by decide⟩

/-- C7: for bytes R, G, B the 16-bit value `display_png` computes decodes to
`R & 0xF8`, `G & 0xFC` and `B & 0xF8`; its three fields are exactly `R >> 3`,
`G >> 2` and `B >> 3`, and it is below 2^16. -/
theorem fb_pixel_truncation (R G B A : Nat) (hR : R < 256) (hG : G < 256) (hB : B < 256) :
    (fb_pixel (rgba R G B A) >>> 11) <<< 3 = R &&& 0xF8
      ∧ ((fb_pixel (rgba R G B A) >>> 5) &&& 0x3F) <<< 2 = G &&& 0xFC
      ∧ (fb_pixel (rgba R G B A) &&& 0x1F) <<< 3 = B &&& 0xF8
      ∧ fb_pixel (rgba R G B A) >>> 11 = R >>> 3
      ∧ (fb_pixel (rgba R G B A) >>> 5) &&& 0x3F = G >>> 2
      ∧ fb_pixel (rgba R G B A) &&& 0x1F = B >>> 3
      ∧ fb_pixel (rgba R G B A) < 65536 := by
  have hp := fb_pixel_arith (rgba R G B A) hR hG hB
  have r0 : rgba R G B A 0 = R := rfl
  have r1 : rgba R G B A 1 = G := rfl
  have r2 : rgba R G B A 2 = B := rfl
  rw [r0, r1, r2] at hp
  rw [hp]
  have m3f : ∀ n : Nat, n &&& 0x3F = n % 64 := fun n => Nat.and_pow_two_sub_one_eq_mod n 6
  have m1f : ∀ n : Nat, n &&& 0x1F = n % 32 := fun n => Nat.and_pow_two_sub_one_eq_mod n 5
  rw [m3f, m1f, ← mask_f8 R hR, ← mask_fc G hG, ← mask_f8 B hB]
  simp only [Nat.shiftRight_eq_div_pow, Nat.shiftLeft_eq]
  norm_num
  omega

/-- Witness of C7 at (255, 128, 64): the decoded channels are 248, 128, 64. -/
theorem fb_pixel_truncation_witness :
    (255 < 256 ∧ 128 < 256 ∧ 64 < 256)
      ∧ (fb_pixel (rgba 255 128 64 0) >>> 11) <<< 3 = 248
      ∧ ((fb_pixel (rgba 255 128 64 0) >>> 5) &&& 0x3F) <<< 2 = 128
      ∧ (fb_pixel (rgba 255 128 64 0) &&& 0x1F) <<< 3 = 64 :=
  have h := fb_pixel_truncation 255 128 64 0 (by decide) (by decide) (by decide)
  ⟨by decide, h.1.trans (by decide), h.2.1.trans (by decide), h.2.2.1.trans (by decide)⟩

/-- C8 (as amended): when bits_per_pixel is a multiple of 8 and
`xres * yres * bits_per_pixel` is below 2^32, `screen_size_in_bytes` returns
`yres * (xres * (bits_per_pixel / 8))`, which is `yres` times the row stride
`display_png` uses. -/
theorem screen_size_in_bytes_eq (fb : framebuffer)
    (h8 : 8 ∣ fb.screeninfo.bits_per_pixel)
    (hs : fb.screeninfo.xres * fb.screeninfo.yres * fb.screeninfo.bits_per_pixel
            < 4294967296) :
    screen_size_in_bytes fb
        = fb.screeninfo.yres * (fb.screeninfo.xres * (fb.screeninfo.bits_per_pixel / 8))
      ∧ screen_size_in_bytes fb = fb.screeninfo.yres * row_stride fb := by
  obtain ⟨k, hk⟩ := h8
  have hscreen : screen_size_in_bytes fb
      = fb.screeninfo.yres * (fb.screeninfo.xres * (fb.screeninfo.bits_per_pixel / 8)) := by
    unfold screen_size_in_bytes
    rw [Nat.mod_mul_mod, Nat.mod_eq_of_lt hs, hk, Nat.mul_div_cancel_left k (by omega)]
    have : fb.screeninfo.xres * fb.screeninfo.yres * (8 * k)
        = 8 * (fb.screeninfo.yres * (fb.screeninfo.xres * k)) := by ring
    rw [this, Nat.mul_div_cancel_left _ (by omega)]
  refine ⟨hscreen, ?_⟩
  rw [hscreen]
  rcases Nat.eq_zero_or_pos fb.screeninfo.yres with h0 | h0
  · rw [h0]; simp
  · unfold row_stride
    have h1 : fb.screeninfo.xres * (8 * k) * 1
        ≤ fb.screeninfo.xres * (8 * k) * fb.screeninfo.yres :=
      Nat.mul_le_mul_left _ h0
    have h2 : fb.screeninfo.xres * (8 * k) * fb.screeninfo.yres
        = fb.screeninfo.xres * fb.screeninfo.yres * (8 * k) := by ring
    rw [hk] at hs
    have h3 : fb.screeninfo.xres * (8 * k) = 8 * (k * fb.screeninfo.xres) := by ring
    have h4 : k * fb.screeninfo.xres < 4294967296 := by omega
    rw [hk, Nat.mul_div_cancel_left k (by omega), Nat.mod_eq_of_lt h4, Nat.mul_comm k]

/-- Witness of C8 (as amended): the 4x4 surface at 16 bits has 32 bytes. -/
theorem screen_size_in_bytes_eq_witness :
    (8 ∣ (mk_fb 4 4 16).screeninfo.bits_per_pixel
      ∧ (mk_fb 4 4 16).screeninfo.xres * (mk_fb 4 4 16).screeninfo.yres
          * (mk_fb 4 4 16).screeninfo.bits_per_pixel < 4294967296)
      ∧ screen_size_in_bytes (mk_fb 4 4 16) = 32
      ∧ row_stride (mk_fb 4 4 16) = 8 :=
  have h := screen_size_in_bytes_eq (mk_fb 4 4 16) (by decide) (by decide)
  ⟨by decide, h.1.trans (by decide), by decide⟩

/-- C8 as stated fails at 2x1 with 12 bits per pixel, where the code returns
`2*1*12/8 = 3` and the formula gives 2, and at 65536 x 65536 with 16 bits, where
the product wraps to 0 and the formula gives 2^33. -/
theorem screen_size_in_bytes_counterexample :
    (screen_size_in_bytes (mk_fb 2 1 12) = 3
        ∧ (mk_fb 2 1 12).screeninfo.yres
            * ((mk_fb 2 1 12).screeninfo.xres
                * ((mk_fb 2 1 12).screeninfo.bits_per_pixel / 8)) = 2)
      ∧ (screen_size_in_bytes (mk_fb 65536 65536 16) = 0
        ∧ (mk_fb 65536 65536 16).screeninfo.yres
            * ((mk_fb 65536 65536 16).screeninfo.xres
                * ((mk_fb 65536 65536 16).screeninfo.bits_per_pixel / 8)) = 8589934592) := by
  decide

/-- C9: on a framebuffer with bits_per_pixel = 16 whose size computation does
not wrap (`xres * yres * 16 < 2^32`), for a raster placed in bounds at (x0, y0),
`display_png` returns and every offset `o` it stores to satisfies
`0 ≤ o < screen_size_in_bytes fb`. -/
theorem display_png_writes_in_bounds (fb : framebuffer) (img : png_image) (x0 y0 : Int)
    (mem : Int → Nat)
    (hbpp : fb.screeninfo.bits_per_pixel = 16)
    (hsize : fb.screeninfo.xres * fb.screeninfo.yres * 16 < 4294967296)
    (hx0 : 0 ≤ x0) (hy0 : 0 ≤ y0)
    (hxw : x0 + img.width ≤ fb.screeninfo.xres)
    (hyh : y0 + img.height ≤ fb.screeninfo.yres) :
    ∃ s, display_png fb (some img) x0 y0 mem
          = display_result.returned { x := img.width, y := img.height } s
      ∧ ∀ e ∈ s.written, 0 ≤ e.1 ∧ e.1 < (screen_size_in_bytes fb : Int) := by
  obtain ⟨X, rfl⟩ := Int.eq_ofNat_of_zero_le hx0
  obtain ⟨Y, rfl⟩ := Int.eq_ofNat_of_zero_le hy0
  have hxw' : X + img.width ≤ fb.screeninfo.xres := by exact_mod_cast hxw
  have hyh' : Y + img.height ≤ fb.screeninfo.yres := by exact_mod_cast hyh
  exact ⟨_, rfl, blit_stores_in_bounds fb img X Y mem hbpp hsize hxw' hyh'⟩

/-- Witness of C9: the 2x1 raster at (1,1) on the 4x4 surface stores only below
offset 32, and it does store (four bytes, at offsets 10 to 13). -/
theorem display_png_writes_in_bounds_witness :
    ((mk_fb 4 4 16).screeninfo.bits_per_pixel = 16
      ∧ (mk_fb 4 4 16).screeninfo.xres * (mk_fb 4 4 16).screeninfo.yres * 16 < 4294967296
      ∧ (1 : Int) + img_red_green.width ≤ (mk_fb 4 4 16).screeninfo.xres
      ∧ (1 : Int) + img_red_green.height ≤ (mk_fb 4 4 16).screeninfo.yres)
      ∧ (blit (mk_fb 4 4 16) { x := 2, y := 1 } img_red_green.row_pointers 1 1
            sentinel_mem).written
          = [(10, 0x00), (11, 0xF8), (12, 0xE0), (13, 0x07)]
      ∧ ∃ s, display_png (mk_fb 4 4 16) (some img_red_green) 1 1 sentinel_mem
              = display_result.returned { x := 2, y := 1 } s
            ∧ ∀ e ∈ s.written, 0 ≤ e.1 ∧ e.1 < (screen_size_in_bytes (mk_fb 4 4 16) : Int) :=
  ⟨by decide, by decide,
   display_png_writes_in_bounds (mk_fb 4 4 16) img_red_green 1 1 sentinel_mem (by decide)
     (by decide) (by decide) (by decide) (by decide) (by decide)⟩

end Fbclock
